import Mathlib

/-
Verification of the scheduling / partition / merge logic of
src/cat/augustus_cgp.py (Comparative-Annotation-Toolkit).

The Python source is shallowly embedded below:
  * the window-planning loop of `setup` (lines 88-97) becomes `chromWindows`
    and `setupPlan`, with Python `xrange` modelled exactly (a zero step is a
    ValueError, a negative step starting from 0 yields no iterations);
  * the result regrouping of `merge_results` (lines 153-165) becomes
    `merge_results` over association lists;
  * the raw-concatenation loop of `join_genes` (lines 178-184) becomes
    `joinGenesRaw`, and the stdout-log loop of `augustus_cgp` (lines 53-58)
    becomes `stdoutLog`;
  * the per-genome output dictionary of `cgp` (line 144) becomes
    `cgpGffChunks`;
  * the job graph built by `setup` (child jobs per window, follow-on merge)
    becomes `jobPrereqs` / `validSchedule`.

Python dictionaries are modelled as association lists built in
first-insertion order.  CPython 2 leaves dict iteration order unspecified
(hash order), so wherever a positive claim depends on the order iteritems()
yields entries — the run-level stdout log of lines 53-58 — the iteration
order is an arbitrary enumeration of the dictionary's entries, quantified
over in the theorems; the negative results below already hold even under
the most favourable insertion-order reading.
-/

set_option maxHeartbeats 1000000

namespace CAT

/-- A genomic window produced by the planning loop in `setup`
(augustus_cgp.py lines 88-91): chromosome name, start offset, length. -/
structure Window where
  chrom : String
  start : Nat
  len : Nat
deriving DecidableEq

/-- Fuel-driven evaluation of Python `xrange(0, stop, step)` for a positive
step: emits `start, start+step, ...` while below `stop`.  The fuel argument
makes the function structurally recursive; `stop` units of fuel always
suffice for a positive step starting from 0 (once `start` has been increased
`stop` times it is at least `stop`, so the fuel-exhausted result `[]` agrees
with the loop's result). -/
def xrangeGo (step : Nat) : Nat → Nat → Nat → List Nat
  | 0, _, _ => []
  | fuel + 1, start, stop =>
    if start < stop then start :: xrangeGo step fuel (start + step) stop else []

/-- Python `xrange(0, stop, step)` for a positive step. -/
def xrangeUp (stop step : Nat) : List Nat :=
  xrangeGo step stop 0 stop

/-- Number of iterations of `xrange(0, d, step)`: the ceiling of `d / step`. -/
def numWindows (d step : Nat) : Nat := (d + step - 1) / step

/-- Window length chosen at line 91: the full chunk size when it fits,
otherwise the remainder of the chromosome. -/
def windowLen (chromSize C start : Nat) : Nat :=
  if start + C ≤ chromSize then C else chromSize - start

/-- The windows planned for one chromosome by the loop at lines 90-91,
assuming a positive step `C - O`. -/
def chromWindows (chrom : String) (chromSize C O : Nat) : List Window :=
  (xrangeUp chromSize (C - O)).map fun s =>
    { chrom := chrom, start := s, len := windowLen chromSize C s }

/-- The error Python `xrange` raises when its step is zero (ValueError). -/
inductive XrangeError where
  | zeroStep
deriving DecidableEq

/-- Planning for one chromosome with the exact behaviour of
`xrange(0, chrom_size, chunksize - overlap)` over Python integers: a zero
step raises ValueError, a negative step with start 0 yields no iterations. -/
def planChromosome (chrom : String) (chromSize C O : Nat) :
    Except XrangeError (List Window) :=
  if C = O then Except.error XrangeError.zeroStep
  else if C < O then Except.ok []
  else Except.ok (chromWindows chrom chromSize C O)

/-- The full planning loop of `setup` (lines 88-97) over the chromosome-size
table, propagating the xrange error. -/
def setupPlan : List (String × Nat) → Nat → Nat → Except XrangeError (List Window)
  | [], _, _ => Except.ok []
  | (chrom, sz) :: rest, C, O => do
    let ws ← planChromosome chrom sz C O
    let rest2 ← setupPlan rest C O
    pure (ws ++ rest2)

/-- All windows of a run, chromosome by chromosome in table order. -/
def planWindows (sizes : List (String × Nat)) (C O : Nat) : List Window :=
  sizes.flatMap fun p => chromWindows p.1 p.2 C O

/-- Length of the intersection of two windows' half-open coordinate
intervals. -/
def overlapLen (a b : Window) : Nat :=
  min (a.start + a.len) (b.start + b.len) - max a.start b.start

/-! Closed form of the planning loop. -/

theorem xrangeGo_spec (step : Nat) (hs : 0 < step) :
    ∀ (fuel start stop : Nat), stop ≤ start + fuel * step →
      xrangeGo step fuel start stop =
        (List.range (numWindows (stop - start) step)).map (fun k => start + k * step) := by
  intro fuel
  induction fuel with
  | zero =>
    intro start stop h
    have hd : stop - start = 0 := by omega
    have : numWindows 0 step = 0 := by
      unfold numWindows
      exact Nat.div_eq_of_lt (by omega)
    simp [xrangeGo, hd, this]
  | succ fuel ih =>
    intro start stop h
    by_cases hlt : start < stop
    · have hstep : stop ≤ (start + step) + fuel * step := by
        have : (fuel + 1) * step = fuel * step + step := by ring
        omega
      have hrec := ih (start + step) stop hstep
      have hsucc : numWindows (stop - start) step =
          numWindows (stop - start - step) step + 1 := by
        unfold numWindows
        have h1 : stop - start + step - 1 = (stop - start - 1) + step := by omega
        rw [h1, Nat.add_div_right _ hs]
        by_cases hds : stop - start ≤ step
        · have h2 : stop - start - step = 0 := by omega
          have h3 : (stop - start - 1) / step = 0 := Nat.div_eq_of_lt (by omega)
          have h4 : (0 + step - 1) / step = 0 := Nat.div_eq_of_lt (by omega)
          rw [h2, h3, h4]
        · have h2 : stop - start - step + step - 1 = (stop - start - 1) := by omega
          rw [h2]
      have hshift : stop - (start + step) = stop - start - step := by omega
      rw [show xrangeGo step (fuel + 1) start stop =
            start :: xrangeGo step fuel (start + step) stop by
          simp [xrangeGo, hlt]]
      rw [hrec, hshift, hsucc, List.range_succ_eq_map]
      simp only [List.map_cons, List.map_map]
      congr 1
      · omega
      · apply List.map_congr_left
        intro k _
        simp [Function.comp]
        ring
    · have hd : stop - start = 0 := by omega
      have hn : numWindows 0 step = 0 := by
        unfold numWindows
        exact Nat.div_eq_of_lt (by omega)
      simp [xrangeGo, hlt, hd, hn]

theorem xrangeUp_eq (stop step : Nat) (hs : 0 < step) :
    xrangeUp stop step = (List.range (numWindows stop step)).map (fun k => k * step) := by
  unfold xrangeUp
  rw [xrangeGo_spec step hs stop 0 stop (by nlinarith)]
  simp

theorem mul_lt_iff_lt_numWindows {k s d : Nat} (hs : 0 < s) :
    k * s < d ↔ k < numWindows d s := by
  unfold numWindows
  rw [Nat.lt_iff_add_one_le, Nat.lt_iff_add_one_le, Nat.le_div_iff_mul_le hs,
    add_mul, one_mul]
  generalize k * s = a
  omega

theorem chromWindows_eq (chrom : String) (L C O : Nat) (h : O < C) :
    chromWindows chrom L C O =
      (List.range (numWindows L (C - O))).map
        (fun k => ⟨chrom, k * (C - O), windowLen L C (k * (C - O))⟩) := by
  unfold chromWindows
  rw [xrangeUp_eq L (C - O) (by omega), List.map_map]
  rfl

theorem chromWindows_length (chrom : String) (L C O : Nat) (h : O < C) :
    (chromWindows chrom L C O).length = numWindows L (C - O) := by
  rw [chromWindows_eq chrom L C O h]
  simp

theorem chromWindows_getElem (chrom : String) (L C O : Nat) (h : O < C)
    (i : Nat) (hi : i < (chromWindows chrom L C O).length) :
    (chromWindows chrom L C O).get ⟨i, hi⟩ =
      ⟨chrom, i * (C - O), windowLen L C (i * (C - O))⟩ := by
  have hlen := chromWindows_length chrom L C O h
  have hi2 : i < numWindows L (C - O) := by omega
  simp [chromWindows_eq chrom L C O h]

theorem mem_chromWindows (chrom : String) (L C O : Nat) (h : O < C) (w : Window) :
    w ∈ chromWindows chrom L C O ↔
      ∃ k, k * (C - O) < L ∧ w = ⟨chrom, k * (C - O), windowLen L C (k * (C - O))⟩ := by
  rw [chromWindows_eq chrom L C O h]
  simp only [List.mem_map, List.mem_range]
  constructor
  · rintro ⟨k, hk, rfl⟩
    exact ⟨k, (mul_lt_iff_lt_numWindows (by omega)).2 hk, rfl⟩
  · rintro ⟨k, hk, rfl⟩
    exact ⟨k, (mul_lt_iff_lt_numWindows (by omega)).1 hk, rfl⟩

/-! Geometry of the planned windows. -/

theorem chromWindows_cover (chrom : String) (L C O : Nat) (h : O < C) :
    ∀ x, x < L → ∃ w ∈ chromWindows chrom L C O, w.start ≤ x ∧ x < w.start + w.len := by
  intro x hx
  have hs0 : 0 < C - O := by omega
  have hmem : (⟨chrom, x / (C - O) * (C - O), windowLen L C (x / (C - O) * (C - O))⟩ : Window)
      ∈ chromWindows chrom L C O := by
    rw [mem_chromWindows chrom L C O h]
    exact ⟨x / (C - O), lt_of_le_of_lt (Nat.div_mul_le_self x (C - O)) hx, rfl⟩
  refine ⟨_, hmem, Nat.div_mul_le_self x (C - O), ?_⟩
  show x < x / (C - O) * (C - O) + windowLen L C (x / (C - O) * (C - O))
  have h2 : x % (C - O) < C - O := Nat.mod_lt x hs0
  have h3 : (C - O) * (x / (C - O)) + x % (C - O) = x := Nat.div_add_mod x (C - O)
  rw [Nat.mul_comm] at h3
  unfold windowLen
  generalize x / (C - O) * (C - O) = t at *
  generalize x % (C - O) = r at *
  split <;> omega

theorem chromWindows_inside (chrom : String) (L C O : Nat) (h : O < C) :
    ∀ w ∈ chromWindows chrom L C O, w.start + w.len ≤ L := by
  intro w hw
  rw [mem_chromWindows chrom L C O h] at hw
  obtain ⟨k, hk, rfl⟩ := hw
  show k * (C - O) + windowLen L C (k * (C - O)) ≤ L
  unfold windowLen
  generalize k * (C - O) = t at *
  split <;> omega

theorem overlapLen_comm (a b : Window) : overlapLen a b = overlapLen b a := by
  unfold overlapLen
  rw [Nat.min_comm, Nat.max_comm]

theorem chromWindows_overlap_le_of_lt (chrom : String) (L C O : Nat) (h : O < C)
    {i j : Nat} (hi : i < (chromWindows chrom L C O).length)
    (hj : j < (chromWindows chrom L C O).length) (hij : i < j) :
    overlapLen ((chromWindows chrom L C O).get ⟨i, hi⟩)
      ((chromWindows chrom L C O).get ⟨j, hj⟩) ≤ O := by
  rw [chromWindows_getElem chrom L C O h i hi, chromWindows_getElem chrom L C O h j hj]
  have hlen := chromWindows_length chrom L C O h
  have hjL : j * (C - O) < L := by
    rw [mul_lt_iff_lt_numWindows (show 0 < C - O by omega)]
    omega
  have hmono : (i + 1) * (C - O) ≤ j * (C - O) := Nat.mul_le_mul_right _ (by omega)
  have hexp : (i + 1) * (C - O) = i * (C - O) + (C - O) := by ring
  rw [hexp] at hmono
  unfold overlapLen windowLen
  simp only []
  generalize i * (C - O) = a at *
  generalize j * (C - O) = b at *
  split <;> split <;> omega

theorem chromWindows_overlap_le (chrom : String) (L C O : Nat) (h : O < C)
    (i j : Nat) (hi : i < (chromWindows chrom L C O).length)
    (hj : j < (chromWindows chrom L C O).length) (hne : i ≠ j) :
    overlapLen ((chromWindows chrom L C O).get ⟨i, hi⟩)
      ((chromWindows chrom L C O).get ⟨j, hj⟩) ≤ O := by
  rcases Nat.lt_or_ge i j with hij | hge
  · exact chromWindows_overlap_le_of_lt chrom L C O h hi hj hij
  · have hij : j < i := by omega
    rw [overlapLen_comm]
    exact chromWindows_overlap_le_of_lt chrom L C O h hj hi hij

theorem chromWindows_lengths (chrom : String) (L C O : Nat) (h : O < C) :
    ∀ w ∈ chromWindows chrom L C O,
      (w.start + C ≤ L → w.len = C) ∧ (L < w.start + C → w.len = L - w.start) ∧
      w.len ≤ C ∧ 0 < w.len := by
  intro w hw
  rw [mem_chromWindows chrom L C O h] at hw
  obtain ⟨k, hk, rfl⟩ := hw
  simp only [windowLen]
  generalize k * (C - O) = t at *
  split <;> refine ⟨by omega, by omega, by omega, by omega⟩

theorem chromWindows_last (chrom : String) (L C O : Nat) (h : O < C)
    (i : Nat) (hi : i < (chromWindows chrom L C O).length)
    (hlast : i + 1 = (chromWindows chrom L C O).length) :
    ((chromWindows chrom L C O).get ⟨i, hi⟩).len =
      L - ((chromWindows chrom L C O).get ⟨i, hi⟩).start := by
  rw [chromWindows_getElem chrom L C O h i hi]
  have hlen := chromWindows_length chrom L C O h
  have hnext : L ≤ (i + 1) * (C - O) := by
    by_contra hc
    push_neg at hc
    have := (mul_lt_iff_lt_numWindows (show 0 < C - O by omega)).1 hc
    omega
  have hexp : (i + 1) * (C - O) = i * (C - O) + (C - O) := by ring
  rw [hexp] at hnext
  show windowLen L C (i * (C - O)) = L - i * (C - O)
  unfold windowLen
  generalize i * (C - O) = t at *
  split <;> omega

theorem chromWindows_consecutive (chrom : String) (L C O : Nat) (h : O < C)
    (i : Nat) (hi1 : i + 1 < (chromWindows chrom L C O).length) :
    overlapLen ((chromWindows chrom L C O).get ⟨i, Nat.lt_of_succ_lt hi1⟩)
        ((chromWindows chrom L C O).get ⟨i + 1, hi1⟩) =
      ((chromWindows chrom L C O).get ⟨i, Nat.lt_of_succ_lt hi1⟩).len - (C - O) ∧
    (((chromWindows chrom L C O).get ⟨i, Nat.lt_of_succ_lt hi1⟩).start + C ≤ L →
      overlapLen ((chromWindows chrom L C O).get ⟨i, Nat.lt_of_succ_lt hi1⟩)
        ((chromWindows chrom L C O).get ⟨i + 1, hi1⟩) = O) := by
  rw [chromWindows_getElem chrom L C O h i (Nat.lt_of_succ_lt hi1),
    chromWindows_getElem chrom L C O h (i + 1) hi1]
  have hlen := chromWindows_length chrom L C O h
  have hnL : (i + 1) * (C - O) < L := by
    rw [mul_lt_iff_lt_numWindows (show 0 < C - O by omega)]
    omega
  have hexp : (i + 1) * (C - O) = i * (C - O) + (C - O) := by ring
  rw [hexp] at hnL ⊢
  simp only [overlapLen, windowLen]
  generalize i * (C - O) = a at *
  constructor
  · split <;> split <;> omega
  · intro hfull
    split <;> split <;> omega

/-! Claims about the window planner. -/

/-- Claim C1: for every chromosome length L ≥ 0, chunk size C > 0 and overlap
0 ≤ O < C, the planned windows cover exactly the coordinates 0 to L: every
coordinate below L lies in some window, no window extends past L, no pair of
windows overlaps by more than O, and a zero-length chromosome yields an empty
window sequence rather than an error. -/
theorem C1_coverage (chrom : String) (L C O : Nat) (_hC : 0 < C) (hO : O < C) :
    (∀ x, x < L → ∃ w ∈ chromWindows chrom L C O, w.start ≤ x ∧ x < w.start + w.len) ∧
    (∀ w ∈ chromWindows chrom L C O, w.start + w.len ≤ L) ∧
    (∀ i, ∀ hi : i < (chromWindows chrom L C O).length,
      ∀ j, ∀ hj : j < (chromWindows chrom L C O).length, i ≠ j →
        overlapLen ((chromWindows chrom L C O).get ⟨i, hi⟩)
          ((chromWindows chrom L C O).get ⟨j, hj⟩) ≤ O) ∧
    (L = 0 → chromWindows chrom L C O = []) :=
  ⟨chromWindows_cover chrom L C O hO, chromWindows_inside chrom L C O hO,
   fun i hi j hj hne => chromWindows_overlap_le chrom L C O hO i j hi hj hne,
   fun hL => by subst hL; rfl⟩

/-- Witness for C1 at chrom = "chr1", L = 10, C = 3, O = 1. -/
theorem C1_coverage_witness :
    (∀ x, x < 10 → ∃ w ∈ chromWindows "chr1" 10 3 1, w.start ≤ x ∧ x < w.start + w.len) ∧
    (∀ w ∈ chromWindows "chr1" 10 3 1, w.start + w.len ≤ 10) ∧
    (∀ i, ∀ hi : i < (chromWindows "chr1" 10 3 1).length,
      ∀ j, ∀ hj : j < (chromWindows "chr1" 10 3 1).length, i ≠ j →
        overlapLen ((chromWindows "chr1" 10 3 1).get ⟨i, hi⟩)
          ((chromWindows "chr1" 10 3 1).get ⟨j, hj⟩) ≤ 1) ∧
    ((10 : Nat) = 0 → chromWindows "chr1" 10 3 1 = []) :=
  C1_coverage "chr1" 10 3 1 (by decide) (by decide)

/-- Claim C4 as stated is false on the code: at L = 4, C = 3, O = 2 (a valid
configuration, since 0 ≤ O < C) the planner yields windows
(0,3), (1,3), (2,2), (3,1); the window at index 2 is not the last window yet
its length is 2 ≠ C. -/
theorem C4_counterexample :
    2 + 1 < (chromWindows "chr1" 4 3 2).length ∧
    ((chromWindows "chr1" 4 3 2).getD 2 ⟨"chr1", 0, 0⟩).len ≠ 3 := by decide

/-- Claim C4, amended: every window whose start + C fits within L has length
exactly C; every other window (a clipped window — when 2·O > C there can be
several, not only the last) has length L - start; no window is longer than C
and every window is non-empty; and the last window's length is exactly the
remaining length L - start. -/
theorem C4_window_lengths (chrom : String) (L C O : Nat) (hO : O < C) :
    (∀ w ∈ chromWindows chrom L C O,
      (w.start + C ≤ L → w.len = C) ∧ (L < w.start + C → w.len = L - w.start) ∧
      w.len ≤ C ∧ 0 < w.len) ∧
    (∀ i, ∀ hi : i < (chromWindows chrom L C O).length,
      i + 1 = (chromWindows chrom L C O).length →
        ((chromWindows chrom L C O).get ⟨i, hi⟩).len =
          L - ((chromWindows chrom L C O).get ⟨i, hi⟩).start) :=
  ⟨chromWindows_lengths chrom L C O hO,
   fun i hi hlast => chromWindows_last chrom L C O hO i hi hlast⟩

/-- Witness for the amended C4 at chrom = "chr1", L = 7, C = 3, O = 1. -/
theorem C4_window_lengths_witness :
    (∀ w ∈ chromWindows "chr1" 7 3 1,
      (w.start + 3 ≤ 7 → w.len = 3) ∧ (7 < w.start + 3 → w.len = 7 - w.start) ∧
      w.len ≤ 3 ∧ 0 < w.len) ∧
    (∀ i, ∀ hi : i < (chromWindows "chr1" 7 3 1).length,
      i + 1 = (chromWindows "chr1" 7 3 1).length →
        ((chromWindows "chr1" 7 3 1).get ⟨i, hi⟩).len =
          7 - ((chromWindows "chr1" 7 3 1).get ⟨i, hi⟩).start) :=
  C4_window_lengths "chr1" 7 3 1 (by decide)

/-- Claim C5 as stated is false on the code: at L = 3, C = 4, O = 3 (a valid
configuration) the windows are (0,3), (1,2), (2,1); the pair at indices
(0, 1) is not the final pair, yet its overlap is 2, not O = 3. -/
theorem C5_counterexample :
    0 + 2 < (chromWindows "chr1" 3 4 3).length ∧
    overlapLen ((chromWindows "chr1" 3 4 3).getD 0 ⟨"chr1", 0, 0⟩)
      ((chromWindows "chr1" 3 4 3).getD 1 ⟨"chr1", 0, 0⟩) ≠ 3 := by decide

/-- Claim C5, amended: each pair of consecutive windows overlaps by exactly
(length of the earlier window) - (C - O); in particular the overlap is
exactly O whenever the earlier window has its full length C, and smaller
exactly for the pairs whose earlier window is clipped (when 2·O > C such
pairs can occur before the final pair). -/
theorem C5_consecutive_overlap (chrom : String) (L C O : Nat) (hO : O < C)
    (i : Nat) (hi1 : i + 1 < (chromWindows chrom L C O).length) :
    overlapLen ((chromWindows chrom L C O).get ⟨i, Nat.lt_of_succ_lt hi1⟩)
        ((chromWindows chrom L C O).get ⟨i + 1, hi1⟩) =
      ((chromWindows chrom L C O).get ⟨i, Nat.lt_of_succ_lt hi1⟩).len - (C - O) ∧
    (((chromWindows chrom L C O).get ⟨i, Nat.lt_of_succ_lt hi1⟩).start + C ≤ L →
      overlapLen ((chromWindows chrom L C O).get ⟨i, Nat.lt_of_succ_lt hi1⟩)
        ((chromWindows chrom L C O).get ⟨i + 1, hi1⟩) = O) :=
  chromWindows_consecutive chrom L C O hO i hi1

/-- Witness for the amended C5 at chrom = "chr1", L = 10, C = 3, O = 1,
consecutive pair (0, 1). -/
theorem C5_consecutive_overlap_witness :
    overlapLen ((chromWindows "chr1" 10 3 1).get ⟨0, by decide⟩)
        ((chromWindows "chr1" 10 3 1).get ⟨1, by decide⟩) =
      ((chromWindows "chr1" 10 3 1).get ⟨0, by decide⟩).len - (3 - 1) ∧
    (((chromWindows "chr1" 10 3 1).get ⟨0, by decide⟩).start + 3 ≤ 10 →
      overlapLen ((chromWindows "chr1" 10 3 1).get ⟨0, by decide⟩)
        ((chromWindows "chr1" 10 3 1).get ⟨1, by decide⟩) = 1) :=
  C5_consecutive_overlap "chr1" 10 3 1 (by decide) 0 (by decide)

/-- Claim C3 as stated is false on the code: there is no ConfigError check.
With C = 2 ≤ O = 3 and a non-empty chromosome table the planner does not
fail at all — it silently returns an empty plan, because
xrange(0, size, -1) yields no iterations. -/
theorem C3_counterexample :
    (2 : Nat) ≤ 3 ∧ setupPlan [("chr1", 5)] 2 3 = Except.ok [] :=
  ⟨by decide, rfl⟩

/-- Claim C3, amended: the code performs no ConfigError check.  For C = O
(and a non-empty chromosome table) the planning loop dies with the
ValueError that Python xrange raises on a zero step; for C < O it silently
produces an empty plan — no error and no windows. -/
theorem C3_invalid_step (sizes : List (String × Nat)) (C O : Nat)
    (hne : sizes ≠ []) (_hle : C ≤ O) :
    (C = O → setupPlan sizes C O = Except.error XrangeError.zeroStep) ∧
    (C < O → setupPlan sizes C O = Except.ok []) := by
  constructor
  · intro hCO
    cases sizes with
    | nil => exact absurd rfl hne
    | cons p rest =>
      obtain ⟨chrom, sz⟩ := p
      simp only [setupPlan, planChromosome, hCO, if_pos]
      rfl
  · intro hlt
    clear hne _hle
    induction sizes with
    | nil => rfl
    | cons p rest ih =>
      obtain ⟨chrom, sz⟩ := p
      have h1 : planChromosome chrom sz C O = Except.ok [] := by
        unfold planChromosome
        rw [if_neg (by omega), if_pos hlt]
      simp only [setupPlan, h1, ih]
      rfl

/-- Witness for the amended C3: a single-chromosome table with C = O = 2
makes the planner raise the zero-step ValueError. -/
theorem C3_invalid_step_witness :
    setupPlan [("chr1", 5)] 2 2 = Except.error XrangeError.zeroStep :=
  (C3_invalid_step [("chr1", 5)] 2 2 (by decide) (by decide)).1 rfl

/-- Claim C9: for L = 1000, C = 300, O = 50 the planner produces exactly the
four windows with starts 0, 250, 500, 750 and lengths 300, 300, 300, 250,
and those windows cover the interval 0 to 1000 exactly. -/
theorem C9_concrete_example :
    chromWindows "chr1" 1000 300 50 =
      [⟨"chr1", 0, 300⟩, ⟨"chr1", 250, 300⟩, ⟨"chr1", 500, 300⟩, ⟨"chr1", 750, 250⟩] ∧
    (∀ x, x < 1000 → ∃ w ∈ chromWindows "chr1" 1000 300 50,
      w.start ≤ x ∧ x < w.start + w.len) ∧
    (∀ w ∈ chromWindows "chr1" 1000 300 50, w.start + w.len ≤ 1000) :=
  ⟨by decide, chromWindows_cover "chr1" 1000 300 50 (by decide),
   chromWindows_inside "chr1" 1000 300 50 (by decide)⟩

/-! The result lists and dictionaries of the merge stage. -/

abbrev ChunkKey := String × Nat × Nat

/-- The (chromosome, start, chunksize) tuple identifying a window's chunk. -/
def windowKey (w : Window) : ChunkKey := (w.chrom, w.start, w.len)

/-- One element of the results list built by `setup` (line 97):
[chrom, start, chunksize, (gff_chunks, stdout_file_id)], after its promise
has resolved.  gff_chunks maps genome ids to gff artifact ids. -/
structure ResultEntry where
  chrom : String
  start : Nat
  chunksize : Nat
  gff_chunks : List (String × Nat)
  stdout_file_id : Nat
deriving DecidableEq

def entryKey (r : ResultEntry) : ChunkKey := (r.chrom, r.start, r.chunksize)

/-- The results list of `setup` (lines 80 and 97): one entry per planned
window, in planning order; `outcome w` is the pair that window's cgp promise
resolves to.  Each entry's position is fixed at planning time, before any
job has run, so the list order never depends on completion order. -/
def setupResults (plan : List Window)
    (outcome : Window → List (String × Nat) × Nat) : List ResultEntry :=
  plan.map fun w => ⟨w.chrom, w.start, w.len, (outcome w).1, (outcome w).2⟩

/-- Python dict assignment d[k] = v on an insertion-ordered association
list: an existing key keeps its position, a new key goes to the end. -/
def dictInsert {K V : Type} [DecidableEq K] (k : K) (v : V) :
    List (K × V) → List (K × V)
  | [] => [(k, v)]
  | (k2, v2) :: rest =>
    if k2 = k then (k, v) :: rest else (k2, v2) :: dictInsert k v rest

/-- Python dict lookup d.get(k). -/
def dictLookup {K V : Type} [DecidableEq K] (k : K) :
    List (K × V) → Option V
  | [] => none
  | (k2, v) :: rest => if k2 = k then some v else dictLookup k rest

/-- gff_chunks_by_genome[genome][key] = v on a defaultdict(dict)
(merge_results, line 160). -/
def ddInsert (g : String) (k : ChunkKey) (v : Nat) :
    List (String × List (ChunkKey × Nat)) → List (String × List (ChunkKey × Nat))
  | [] => [(g, [(k, v)])]
  | (g2, d) :: rest =>
    if g2 = g then (g, dictInsert k v d) :: rest else (g2, d) :: ddInsert g k v rest

/-- The body of merge_results' loop (lines 157-160) for one result entry:
record the stdout artifact under the chunk key, and file each genome's gff
artifact under (genome, chunk key). -/
def mergeStep (acc : List (String × List (ChunkKey × Nat)) × List (ChunkKey × Nat))
    (r : ResultEntry) :
    List (String × List (ChunkKey × Nat)) × List (ChunkKey × Nat) :=
  (r.gff_chunks.foldl (fun byG gv => ddInsert gv.1 (entryKey r) gv.2 byG) acc.1,
   dictInsert (entryKey r) r.stdout_file_id acc.2)

/-- merge_results (lines 153-165): regroups the per-window results into
(gff_chunks_by_genome, stdout_file_ids). -/
def merge_results (results : List ResultEntry) :
    List (String × List (ChunkKey × Nat)) × List (ChunkKey × Nat) :=
  results.foldl mergeStep ([], [])

/-- The chunk collection handed to one genome's join_genes job (line 163:
gff_chunks_by_genome[genome]). -/
def genomeChunks
    (m : List (String × List (ChunkKey × Nat)) × List (ChunkKey × Nat))
    (g : String) : List (ChunkKey × Nat) :=
  (dictLookup g m.1).getD []

/-- The boundary-marker line written before each chunk (lines 55 and 182). -/
def beginChunkMarker (chrom : String) (start chunksize : Nat) : String :=
  "## BEGIN CHUNK chrom: " ++ chrom ++ " start: " ++ toString start ++
    " chunksize: " ++ toString chunksize ++ "\n"

/-- The lines join_genes writes to the raw gtf file (lines 178-184): for
each chunk of the collection, in collection order, the marker line followed
by the lines of that chunk's artifact. -/
def joinGenesRaw (fileContent : Nat → List String)
    (gff_chunks : List (ChunkKey × Nat)) : List String :=
  gff_chunks.flatMap fun kc =>
    beginChunkMarker kc.1.1 kc.1.2.1 kc.1.2.2 :: fileContent kc.2

/-- The lines augustus_cgp writes to the run-level stdout file (lines
53-58), as a function of the sequence of entries in the order
stdout_file_ids.iteritems() yields them: for each yielded entry, the marker
line followed by the lines of that window's prediction log.  CPython 2
leaves the dict's iteration order unspecified (hash order), so theorems
about this loop take the yielded sequence as an arbitrary enumeration of
the dictionary's entries. -/
def stdoutLog (fileContent : Nat → List String)
    (iterItems : List (ChunkKey × Nat)) : List String :=
  iterItems.flatMap fun kc =>
    beginChunkMarker kc.1.1 kc.1.2.1 kc.1.2.2 :: fileContent kc.2

/-- The per-genome output dictionary of cgp (line 144): one gff artifact per
configured genome, keyed by genome, built by the dict comprehension over
args.genomes. -/
def cgpGffChunks (genomes : List String) (fileIdOf : String → Nat) :
    List (String × Nat) :=
  genomes.foldl (fun d g => dictInsert g (fileIdOf g) d) []

/-! Dictionary lemmas. -/

theorem dictInsert_of_not_mem {K V : Type} [DecidableEq K] (k : K) (v : V)
    (d : List (K × V)) (h : k ∉ d.map Prod.fst) :
    dictInsert k v d = d ++ [(k, v)] := by
  induction d with
  | nil => rfl
  | cons p rest ih =>
    obtain ⟨k2, v2⟩ := p
    simp only [List.map_cons, List.mem_cons, not_or] at h
    simp only [dictInsert]
    rw [if_neg (fun hk => h.1 hk.symm), ih h.2]
    rfl

theorem dictLookup_insert_self {K V : Type} [DecidableEq K] (k : K) (v : V)
    (d : List (K × V)) : dictLookup k (dictInsert k v d) = some v := by
  induction d with
  | nil => simp [dictInsert, dictLookup]
  | cons p rest ih =>
    obtain ⟨k2, v2⟩ := p
    by_cases hk : k2 = k
    · simp [dictInsert, dictLookup, hk]
    · simp [dictInsert, dictLookup, hk, ih]

theorem dictLookup_insert_other {K V : Type} [DecidableEq K] {q k : K}
    (hne : q ≠ k) (v : V) (d : List (K × V)) :
    dictLookup q (dictInsert k v d) = dictLookup q d := by
  induction d with
  | nil => simp [dictInsert, dictLookup, Ne.symm hne]
  | cons p rest ih =>
    obtain ⟨k2, v2⟩ := p
    by_cases hk : k2 = k
    · subst hk
      simp [dictInsert, dictLookup, Ne.symm hne]
    · simp only [dictInsert, if_neg hk]
      by_cases hq : k2 = q
      · simp [dictLookup, hq]
      · simp [dictLookup, hq, ih]

theorem dictLookup_eq_none_iff {K V : Type} [DecidableEq K] (k : K)
    (d : List (K × V)) : dictLookup k d = none ↔ k ∉ d.map Prod.fst := by
  induction d with
  | nil => simp [dictLookup]
  | cons p rest ih =>
    obtain ⟨k2, v2⟩ := p
    by_cases hk : k2 = k
    · subst hk
      simp [dictLookup]
    · simp only [dictLookup, if_neg hk, List.map_cons, List.mem_cons, not_or]
      rw [ih]
      constructor
      · intro h
        exact ⟨fun he => hk he.symm, h⟩
      · intro h
        exact h.2

theorem dictLookup_ddInsert_self (g : String) (k : ChunkKey) (v : Nat)
    (byG : List (String × List (ChunkKey × Nat))) :
    dictLookup g (ddInsert g k v byG) =
      some (dictInsert k v ((dictLookup g byG).getD [])) := by
  induction byG with
  | nil => simp [ddInsert, dictLookup, dictInsert]
  | cons p rest ih =>
    obtain ⟨g2, d⟩ := p
    by_cases hg : g2 = g
    · simp [ddInsert, dictLookup, hg]
    · simp [ddInsert, dictLookup, hg, ih]

theorem dictLookup_ddInsert_other {q g : String} (hne : q ≠ g) (k : ChunkKey)
    (v : Nat) (byG : List (String × List (ChunkKey × Nat))) :
    dictLookup q (ddInsert g k v byG) = dictLookup q byG := by
  induction byG with
  | nil => simp [ddInsert, dictLookup, Ne.symm hne]
  | cons p rest ih =>
    obtain ⟨g2, d⟩ := p
    by_cases hg : g2 = g
    · subst hg
      simp [ddInsert, dictLookup, Ne.symm hne]
    · simp only [ddInsert, if_neg hg]
      by_cases hq : g2 = q
      · simp [dictLookup, hq]
      · simp [dictLookup, hq, ih]

/-! Characterisation of merge_results. -/

theorem innerFold_not_mem (key : ChunkKey) (g : String)
    (cs : List (String × Nat)) (h : g ∉ cs.map Prod.fst)
    (byG : List (String × List (ChunkKey × Nat))) :
    dictLookup g (cs.foldl (fun b gv => ddInsert gv.1 key gv.2 b) byG) =
      dictLookup g byG := by
  induction cs generalizing byG with
  | nil => rfl
  | cons p rest ih =>
    obtain ⟨g1, v1⟩ := p
    simp only [List.map_cons, List.mem_cons, not_or] at h
    simp only [List.foldl_cons]
    rw [ih h.2, dictLookup_ddInsert_other h.1]

theorem innerFold_lookup (key : ChunkKey) (g : String) (v : Nat)
    (cs : List (String × Nat)) (hnd : (cs.map Prod.fst).Nodup)
    (hv : dictLookup g cs = some v)
    (byG : List (String × List (ChunkKey × Nat))) :
    dictLookup g (cs.foldl (fun b gv => ddInsert gv.1 key gv.2 b) byG) =
      some (dictInsert key v ((dictLookup g byG).getD [])) := by
  induction cs generalizing byG with
  | nil => simp [dictLookup] at hv
  | cons p rest ih =>
    obtain ⟨g1, v1⟩ := p
    simp only [List.map_cons, List.nodup_cons] at hnd
    simp only [List.foldl_cons]
    by_cases hg : g1 = g
    · subst hg
      have hv1 : v1 = v := by simpa [dictLookup] using hv
      rw [innerFold_not_mem key g1 rest hnd.1, dictLookup_ddInsert_self, hv1]
    · simp only [dictLookup, if_neg hg] at hv
      rw [ih hnd.2 hv, dictLookup_ddInsert_other (fun he => hg he.symm)]

theorem merge_foldl_stdout (results : List ResultEntry) :
    ∀ acc : List (String × List (ChunkKey × Nat)) × List (ChunkKey × Nat),
      (results.map entryKey).Nodup →
      (∀ r ∈ results, entryKey r ∉ acc.2.map Prod.fst) →
      (results.foldl mergeStep acc).2 =
        acc.2 ++ results.map fun r => (entryKey r, r.stdout_file_id) := by
  induction results with
  | nil =>
    intro acc _ _
    simp
  | cons r rest ih =>
    intro acc hnd hfresh
    simp only [List.map_cons, List.nodup_cons] at hnd
    simp only [List.foldl_cons]
    have hk : entryKey r ∉ acc.2.map Prod.fst := hfresh r (by simp)
    have hstep2 : (mergeStep acc r).2 = acc.2 ++ [(entryKey r, r.stdout_file_id)] := by
      simp only [mergeStep]
      exact dictInsert_of_not_mem _ _ _ hk
    rw [ih (mergeStep acc r) hnd.2 ?fresh2]
    · rw [hstep2]
      simp
    case fresh2 =>
      intro q hq
      have h1 : entryKey q ∉ acc.2.map Prod.fst := hfresh q (List.mem_cons_of_mem _ hq)
      have h2 : entryKey q ≠ entryKey r := by
        intro he
        exact hnd.1 (he ▸ List.mem_map_of_mem entryKey hq)
      rw [hstep2]
      simp only [List.map_append, List.map_cons, List.map_nil, List.mem_append,
        List.mem_singleton, not_or]
      exact ⟨h1, h2⟩

theorem merge_foldl_genome (g : String) (results : List ResultEntry) :
    ∀ acc : List (String × List (ChunkKey × Nat)) × List (ChunkKey × Nat),
      (results.map entryKey).Nodup →
      (∀ r ∈ results, (r.gff_chunks.map Prod.fst).Nodup) →
      (∀ r ∈ results, entryKey r ∉ (genomeChunks acc g).map Prod.fst) →
      genomeChunks (results.foldl mergeStep acc) g =
        genomeChunks acc g ++
          (results.filter fun r => (dictLookup g r.gff_chunks).isSome).map
            fun r => (entryKey r, (dictLookup g r.gff_chunks).getD 0) := by
  induction results with
  | nil =>
    intro acc _ _ _
    simp
  | cons r rest ih =>
    intro acc hnd hchunks hfresh
    simp only [List.map_cons, List.nodup_cons] at hnd
    simp only [List.foldl_cons]
    have hchunk0 : (r.gff_chunks.map Prod.fst).Nodup := hchunks r (by simp)
    cases hlook : dictLookup g r.gff_chunks with
    | none =>
      have hnm : g ∉ r.gff_chunks.map Prod.fst := (dictLookup_eq_none_iff g _).1 hlook
      have hsame : genomeChunks (mergeStep acc r) g = genomeChunks acc g := by
        simp only [genomeChunks, mergeStep]
        rw [innerFold_not_mem (entryKey r) g r.gff_chunks hnm]
      rw [ih (mergeStep acc r) hnd.2 (fun q hq => hchunks q (List.mem_cons_of_mem _ hq))
        (fun q hq => hsame ▸ hfresh q (List.mem_cons_of_mem _ hq))]
      rw [hsame]
      simp [List.filter_cons, hlook]
    | some v =>
      have hkey : entryKey r ∉ (genomeChunks acc g).map Prod.fst := hfresh r (by simp)
      have hstep : genomeChunks (mergeStep acc r) g =
          genomeChunks acc g ++ [(entryKey r, v)] := by
        simp only [genomeChunks, mergeStep]
        rw [innerFold_lookup (entryKey r) g v r.gff_chunks hchunk0 hlook]
        simp only [Option.getD_some]
        exact dictInsert_of_not_mem _ _ _ hkey
      rw [ih (mergeStep acc r) hnd.2 (fun q hq => hchunks q (List.mem_cons_of_mem _ hq))
        ?fresh2]
      · rw [hstep]
        simp [List.filter_cons, hlook]
      case fresh2 =>
        intro q hq
        have h1 : entryKey q ∉ (genomeChunks acc g).map Prod.fst :=
          hfresh q (List.mem_cons_of_mem _ hq)
        have h2 : entryKey q ≠ entryKey r := by
          intro he
          exact hnd.1 (he ▸ List.mem_map_of_mem entryKey hq)
        rw [hstep]
        simp only [List.map_append, List.map_cons, List.map_nil, List.mem_append,
          List.mem_singleton, not_or]
        exact ⟨h1, h2⟩

theorem merge_results_stdout (results : List ResultEntry)
    (hnd : (results.map entryKey).Nodup) :
    (merge_results results).2 =
      results.map fun r => (entryKey r, r.stdout_file_id) := by
  have := merge_foldl_stdout results ([], []) hnd (by simp)
  simpa [merge_results] using this

theorem merge_results_genome (g : String) (results : List ResultEntry)
    (hnd : (results.map entryKey).Nodup)
    (hchunks : ∀ r ∈ results, (r.gff_chunks.map Prod.fst).Nodup) :
    genomeChunks (merge_results results) g =
      (results.filter fun r => (dictLookup g r.gff_chunks).isSome).map
        fun r => (entryKey r, (dictLookup g r.gff_chunks).getD 0) := by
  have := merge_foldl_genome g results ([], []) hnd hchunks (by simp [genomeChunks, dictLookup])
  simpa [merge_results, genomeChunks] using this

theorem flatMap_of_map {α β γ : Type} (f : α → β) (g : β → List γ) (l : List α) :
    (l.map f).flatMap g = l.flatMap fun a => g (f a) := by
  induction l with
  | nil => rfl
  | cons a rest ih => simp [ih]

theorem perm_flatMap {α β : Type} (f : α → List β) {l1 l2 : List α}
    (p : l1.Perm l2) : (l1.flatMap f).Perm (l2.flatMap f) := by
  induction p with
  | nil => simp
  | cons a p ih =>
    simp only [List.flatMap_cons]
    exact ih.append_left (f a)
  | swap a b l =>
    simp only [List.flatMap_cons, ← List.append_assoc]
    exact List.Perm.append_right _ List.perm_append_comm
  | trans p1 p2 ih1 ih2 => exact ih1.trans ih2

theorem filter_of_map {α β : Type} (f : α → β) (p : β → Bool) (l : List α) :
    (l.map f).filter p = (l.filter fun a => p (f a)).map f := by
  induction l with
  | nil => rfl
  | cons a rest ih =>
    simp only [List.map_cons, List.filter_cons]
    by_cases hp : p (f a)
    · simp [hp, ih]
    · simp [hp, ih]

theorem foldl_dictInsert_not_mem (fileIdOf : String → Nat) (gs : List String)
    (q : String) (h : q ∉ gs) :
    ∀ d : List (String × Nat),
      dictLookup q (gs.foldl (fun d g => dictInsert g (fileIdOf g) d) d) =
        dictLookup q d := by
  induction gs with
  | nil =>
    intro d
    rfl
  | cons g0 rest ih =>
    intro d
    simp only [List.mem_cons, not_or] at h
    simp only [List.foldl_cons]
    rw [ih h.2, dictLookup_insert_other h.1]

theorem foldl_dictInsert_keys (fileIdOf : String → Nat) (genomes : List String) :
    ∀ d : List (String × Nat), genomes.Nodup →
      (∀ g ∈ genomes, g ∉ d.map Prod.fst) →
      (genomes.foldl (fun d g => dictInsert g (fileIdOf g) d) d).map Prod.fst =
        d.map Prod.fst ++ genomes := by
  induction genomes with
  | nil =>
    intro d _ _
    simp
  | cons g0 rest ih =>
    intro d hnd hfresh
    simp only [List.nodup_cons] at hnd
    simp only [List.foldl_cons]
    have h0 : g0 ∉ d.map Prod.fst := hfresh g0 (by simp)
    have hins : dictInsert g0 (fileIdOf g0) d = d ++ [(g0, fileIdOf g0)] :=
      dictInsert_of_not_mem _ _ _ h0
    rw [ih _ hnd.2 ?fresh]
    · rw [hins]
      simp
    case fresh =>
      intro q hq
      rw [hins]
      simp only [List.map_append, List.map_cons, List.map_nil, List.mem_append,
        List.mem_singleton, not_or]
      exact ⟨hfresh q (List.mem_cons_of_mem _ hq), fun he => hnd.1 (he ▸ hq)⟩

theorem foldl_dictInsert_lookup (fileIdOf : String → Nat) (genomes : List String) :
    ∀ d : List (String × Nat), genomes.Nodup →
      (∀ g ∈ genomes, g ∉ d.map Prod.fst) →
      ∀ g ∈ genomes,
        dictLookup g (genomes.foldl (fun d g2 => dictInsert g2 (fileIdOf g2) d) d) =
          some (fileIdOf g) := by
  induction genomes with
  | nil =>
    intro d _ _ g hg
    simp at hg
  | cons g0 rest ih =>
    intro d hnd hfresh g hg
    simp only [List.nodup_cons] at hnd
    simp only [List.foldl_cons]
    rcases List.mem_cons.1 hg with hg0 | hgr
    · subst hg0
      rw [foldl_dictInsert_not_mem fileIdOf rest g hnd.1, dictLookup_insert_self]
    · have h0 : g0 ∉ d.map Prod.fst := hfresh g0 (by simp)
      have hins : dictInsert g0 (fileIdOf g0) d = d ++ [(g0, fileIdOf g0)] :=
        dictInsert_of_not_mem _ _ _ h0
      refine ih _ hnd.2 ?_ g hgr
      intro q hq
      rw [hins]
      simp only [List.map_append, List.map_cons, List.map_nil, List.mem_append,
        List.mem_singleton, not_or]
      exact ⟨hfresh q (List.mem_cons_of_mem _ hq), fun he => hnd.1 (he ▸ hq)⟩

theorem setupPlan_ok (sizes : List (String × Nat)) (C O : Nat) (h : O < C) :
    setupPlan sizes C O = Except.ok (planWindows sizes C O) := by
  induction sizes with
  | nil => rfl
  | cons p rest ih =>
    obtain ⟨chrom, sz⟩ := p
    have h1 : planChromosome chrom sz C O = Except.ok (chromWindows chrom sz C O) := by
      unfold planChromosome
      rw [if_neg (by omega), if_neg (by omega)]
    simp only [setupPlan, h1, ih, planWindows, List.flatMap_cons]
    rfl

theorem chromWindows_key_chrom (chrom : String) (L C O : Nat) (k : ChunkKey)
    (hk : k ∈ (chromWindows chrom L C O).map windowKey) : k.1 = chrom := by
  simp only [List.mem_map] at hk
  obtain ⟨w, hw, rfl⟩ := hk
  unfold chromWindows at hw
  simp only [List.mem_map] at hw
  obtain ⟨s, _, rfl⟩ := hw
  rfl

theorem planWindows_key_chrom (sizes : List (String × Nat)) (C O : Nat)
    (k : ChunkKey) (hk : k ∈ (planWindows sizes C O).map windowKey) :
    k.1 ∈ sizes.map Prod.fst := by
  induction sizes with
  | nil => simp [planWindows] at hk
  | cons p rest ih =>
    simp only [planWindows, List.flatMap_cons, List.map_append,
      List.mem_append] at hk
    rcases hk with hk | hk
    · simp only [List.map_cons, List.mem_cons]
      exact Or.inl (chromWindows_key_chrom p.1 p.2 C O k hk)
    · simp only [List.map_cons, List.mem_cons]
      exact Or.inr (ih hk)

theorem chromWindows_keys_nodup (chrom : String) (L C O : Nat) (hO : O < C) :
    ((chromWindows chrom L C O).map windowKey).Nodup := by
  rw [chromWindows_eq chrom L C O hO, List.map_map]
  refine List.Nodup.map ?_ (List.nodup_range _)
  intro a b hab
  have h2 : a * (C - O) = b * (C - O) := congrArg (fun k : ChunkKey => k.2.1) hab
  exact Nat.eq_of_mul_eq_mul_right (by omega) h2

theorem planWindows_keys_nodup (sizes : List (String × Nat)) (C O : Nat)
    (hO : O < C) (hnames : (sizes.map Prod.fst).Nodup) :
    ((planWindows sizes C O).map windowKey).Nodup := by
  induction sizes with
  | nil => simp [planWindows]
  | cons p rest ih =>
    simp only [List.map_cons, List.nodup_cons] at hnames
    simp only [planWindows, List.flatMap_cons, List.map_append]
    rw [List.nodup_append]
    refine ⟨chromWindows_keys_nodup p.1 p.2 C O hO, ih hnames.2, ?_⟩
    intro k hk1 hk2
    have hc1 : k.1 = p.1 := chromWindows_key_chrom p.1 p.2 C O k hk1
    have hc2 : k.1 ∈ rest.map Prod.fst := planWindows_key_chrom rest C O k hk2
    exact hnames.1 (hc1 ▸ hc2)

/-! Claims about the merge stage. -/

/-- Claim C2 as stated is false on the code: merge_results applies no sort.
With the two window results below presented in the order (start 250, start
0), the collection passed to the per-genome join for genome "g" lists start
250 before start 0 — it is not sorted by window start offset. -/
theorem C2_counterexample :
    ¬ (genomeChunks
        (merge_results [⟨"chr1", 250, 300, [("g", 10)], 0⟩,
          ⟨"chr1", 0, 300, [("g", 11)], 1⟩]) "g").Pairwise
        (fun a b => a.1.2.1 ≤ b.1.2.1) := by
  intro h
  have he : genomeChunks
      (merge_results [⟨"chr1", 250, 300, [("g", 10)], 0⟩,
        ⟨"chr1", 0, 300, [("g", 11)], 1⟩]) "g" =
      [(("chr1", 250, 300), 10), (("chr1", 0, 300), 11)] := by rfl
  rw [he] at h
  have h2 := (List.pairwise_cons.1 h).1 (("chr1", 0, 300), 11) (by simp)
  exact absurd h2 (by decide)

/-- Claim C2, amended: merge_results performs no sorting at all.  Each
genome's chunk collection preserves the order of the incoming results list
(restricted to the entries whose chunk set contains that genome), and the
raw concatenation written by join_genes follows exactly that collection
order, marker line before each chunk; consequently the collection is sorted
by window start offset precisely when the incoming results list is (as it is
when the list is the one built by setup in planning order). -/
theorem C2_merge_order (results : List ResultEntry) (g : String)
    (fileContent : Nat → List String)
    (hnd : (results.map entryKey).Nodup)
    (hchunks : ∀ r ∈ results, (r.gff_chunks.map Prod.fst).Nodup) :
    genomeChunks (merge_results results) g =
      (results.filter fun r => (dictLookup g r.gff_chunks).isSome).map
        (fun r => (entryKey r, (dictLookup g r.gff_chunks).getD 0)) ∧
    joinGenesRaw fileContent (genomeChunks (merge_results results) g) =
      (results.filter fun r => (dictLookup g r.gff_chunks).isSome).flatMap
        (fun r => beginChunkMarker r.chrom r.start r.chunksize ::
          fileContent ((dictLookup g r.gff_chunks).getD 0)) ∧
    (results.Pairwise (fun a b => a.start ≤ b.start) →
      (genomeChunks (merge_results results) g).Pairwise
        (fun a b => a.1.2.1 ≤ b.1.2.1)) := by
  have h1 := merge_results_genome g results hnd hchunks
  refine ⟨h1, ?_, ?_⟩
  · rw [h1]
    unfold joinGenesRaw
    rw [flatMap_of_map]
    rfl
  · intro hs
    rw [h1, List.pairwise_map]
    exact (hs.filter _).imp (fun hab => hab)

/-- Witness for the amended C2: two windows presented in ascending start
order for genome "g". -/
theorem C2_merge_order_witness :
    genomeChunks (merge_results [⟨"chr1", 0, 300, [("g", 11)], 1⟩,
        ⟨"chr1", 250, 300, [("g", 10)], 0⟩]) "g" =
      ([⟨"chr1", 0, 300, [("g", 11)], 1⟩,
          (⟨"chr1", 250, 300, [("g", 10)], 0⟩ : ResultEntry)].filter
        fun r => (dictLookup "g" r.gff_chunks).isSome).map
        (fun r => (entryKey r, (dictLookup "g" r.gff_chunks).getD 0)) ∧
    joinGenesRaw (fun _ => [])
        (genomeChunks (merge_results [⟨"chr1", 0, 300, [("g", 11)], 1⟩,
          ⟨"chr1", 250, 300, [("g", 10)], 0⟩]) "g") =
      ([⟨"chr1", 0, 300, [("g", 11)], 1⟩,
          (⟨"chr1", 250, 300, [("g", 10)], 0⟩ : ResultEntry)].filter
        fun r => (dictLookup "g" r.gff_chunks).isSome).flatMap
        (fun r => beginChunkMarker r.chrom r.start r.chunksize ::
          (fun _ : Nat => ([] : List String)) ((dictLookup "g" r.gff_chunks).getD 0)) ∧
    ([⟨"chr1", 0, 300, [("g", 11)], 1⟩,
        (⟨"chr1", 250, 300, [("g", 10)], 0⟩ : ResultEntry)].Pairwise
      (fun a b => a.start ≤ b.start) →
      (genomeChunks (merge_results [⟨"chr1", 0, 300, [("g", 11)], 1⟩,
          ⟨"chr1", 250, 300, [("g", 10)], 0⟩]) "g").Pairwise
        (fun a b => a.1.2.1 ≤ b.1.2.1)) :=
  C2_merge_order [⟨"chr1", 0, 300, [("g", 11)], 1⟩,
    ⟨"chr1", 250, 300, [("g", 10)], 0⟩] "g" (fun _ => [])
    (by decide) (by decide)

/-- Claim C7 as stated is false on the code: line 54 iterates the
stdout_file_ids dict in CPython 2's unspecified hash order, not window
order.  For the two-window run below, the reversed enumeration is a
permutation of the dictionary's entries — a possible iteritems() order —
and the log it produces is not the window-order concatenation. -/
theorem C7_counterexample :
    [((("chr1", 4, 5) : ChunkKey), 104), (("chr1", 0, 5), 100)].Perm
      (merge_results (setupResults [⟨"chr1", 0, 5⟩, ⟨"chr1", 4, 5⟩]
        (fun w => ([("g", w.start)], w.start + 100)))).2 ∧
    stdoutLog (fun n => [toString n])
        [((("chr1", 4, 5) : ChunkKey), 104), (("chr1", 0, 5), 100)] ≠
      [⟨"chr1", 0, 5⟩, (⟨"chr1", 4, 5⟩ : Window)].flatMap
        (fun w => beginChunkMarker w.chrom w.start w.len ::
          [toString (w.start + 100)]) := by
  constructor
  · have he : (merge_results (setupResults [⟨"chr1", 0, 5⟩, ⟨"chr1", 4, 5⟩]
        (fun w => ([("g", w.start)], w.start + 100)))).2 =
        [((("chr1", 0, 5) : ChunkKey), 100), (("chr1", 4, 5), 104)] := by rfl
    rw [he]
    exact List.Perm.swap _ _ _
  · decide

/-- Claim C7, amended: the stdout dictionary holds exactly one entry per
window — the window's key paired with its log artifact, stored in planning
order — so the run-level log contains every window's marker-prefixed
prediction log exactly once; but because line 54 iterates the dict in
CPython 2's unspecified hash order, the concatenation follows whatever
enumeration iteritems() yields: it is a permutation of the window-order
concatenation, and equals it exactly when the enumeration is the
dictionary's insertion order. -/
theorem C7_log_order (plan : List Window)
    (outcome : Window → List (String × Nat) × Nat)
    (fileContent : Nat → List String) (iterItems : List (ChunkKey × Nat))
    (hnd : ((setupResults plan outcome).map entryKey).Nodup)
    (hiter : iterItems.Perm (merge_results (setupResults plan outcome)).2) :
    (merge_results (setupResults plan outcome)).2 =
      plan.map (fun w => (windowKey w, (outcome w).2)) ∧
    (stdoutLog fileContent iterItems).Perm
      (plan.flatMap fun w =>
        beginChunkMarker w.chrom w.start w.len :: fileContent (outcome w).2) ∧
    (iterItems = (merge_results (setupResults plan outcome)).2 →
      stdoutLog fileContent iterItems =
        plan.flatMap fun w =>
          beginChunkMarker w.chrom w.start w.len :: fileContent (outcome w).2) := by
  have h1 : (merge_results (setupResults plan outcome)).2 =
      plan.map (fun w => (windowKey w, (outcome w).2)) := by
    rw [merge_results_stdout _ hnd]
    unfold setupResults
    rw [List.map_map]
    rfl
  refine ⟨h1, ?_, ?_⟩
  · have hp := perm_flatMap
      (fun kc : ChunkKey × Nat =>
        beginChunkMarker kc.1.1 kc.1.2.1 kc.1.2.2 :: fileContent kc.2) hiter
    rw [h1, flatMap_of_map] at hp
    exact hp
  · intro he
    rw [he, h1]
    unfold stdoutLog
    rw [flatMap_of_map]
    rfl

/-- Witness for the amended C7: a two-window plan whose dictionary is
enumerated in reversed order. -/
theorem C7_log_order_witness :
    (merge_results (setupResults [⟨"chr1", 0, 5⟩, ⟨"chr1", 4, 5⟩]
        (fun w => ([("g", w.start)], w.start + 100)))).2 =
      [⟨"chr1", 0, 5⟩, (⟨"chr1", 4, 5⟩ : Window)].map
        (fun w => (windowKey w,
          ((fun w : Window => (([("g", w.start)], w.start + 100) :
            List (String × Nat) × Nat)) w).2)) ∧
    (stdoutLog (fun n => [toString n])
        [((("chr1", 4, 5) : ChunkKey), 104), (("chr1", 0, 5), 100)]).Perm
      ([⟨"chr1", 0, 5⟩, (⟨"chr1", 4, 5⟩ : Window)].flatMap fun w =>
        beginChunkMarker w.chrom w.start w.len ::
          (fun n : Nat => [toString n]) ((fun w : Window => (([("g", w.start)], w.start + 100) :
            List (String × Nat) × Nat)) w).2) ∧
    ([((("chr1", 4, 5) : ChunkKey), 104), (("chr1", 0, 5), 100)] =
        (merge_results (setupResults [⟨"chr1", 0, 5⟩, ⟨"chr1", 4, 5⟩]
          (fun w => ([("g", w.start)], w.start + 100)))).2 →
      stdoutLog (fun n => [toString n])
          [((("chr1", 4, 5) : ChunkKey), 104), (("chr1", 0, 5), 100)] =
        [⟨"chr1", 0, 5⟩, (⟨"chr1", 4, 5⟩ : Window)].flatMap fun w =>
          beginChunkMarker w.chrom w.start w.len ::
            (fun n : Nat => [toString n]) ((fun w : Window => (([("g", w.start)], w.start + 100) :
              List (String × Nat) × Nat)) w).2) :=
  C7_log_order [⟨"chr1", 0, 5⟩, ⟨"chr1", 4, 5⟩]
    (fun w => ([("g", w.start)], w.start + 100)) (fun n => [toString n])
    [((("chr1", 4, 5) : ChunkKey), 104), (("chr1", 0, 5), 100)]
    (by decide) (by decide)

/-- Claim C8: cgp's per-window output dictionary has exactly one entry per
configured genome: its key sequence equals args.genomes, and every
configured genome maps to its artifact — an empty result is still an
artifact filed under the genome's key, never a missing key. -/
theorem C8_chunkset_keys (genomes : List String) (fileIdOf : String → Nat)
    (hnd : genomes.Nodup) :
    (cgpGffChunks genomes fileIdOf).map Prod.fst = genomes ∧
    ∀ g ∈ genomes,
      dictLookup g (cgpGffChunks genomes fileIdOf) = some (fileIdOf g) := by
  constructor
  · have h := foldl_dictInsert_keys fileIdOf genomes [] hnd (by simp)
    simpa [cgpGffChunks] using h
  · intro g hg
    exact foldl_dictInsert_lookup fileIdOf genomes [] hnd (by simp) g hg

/-- Witness for C8 with two genomes. -/
theorem C8_chunkset_keys_witness :
    (cgpGffChunks ["galGal4", "hg38"] (fun _ => 7)).map Prod.fst =
      ["galGal4", "hg38"] ∧
    ∀ g ∈ ["galGal4", "hg38"],
      dictLookup g (cgpGffChunks ["galGal4", "hg38"] (fun _ => 7)) = some 7 :=
  C8_chunkset_keys ["galGal4", "hg38"] (fun _ => 7) (by decide)

/-- Claim C10: with distinct chromosome names and a valid configuration
(O < C), the (chromosome, start, chunksize) triples of the planned windows
are pairwise distinct — within one chromosome the starts are distinct
multiples of C - O — so the merge stage's dictionaries keyed by these
triples retain exactly one stdout artifact per window and exactly one
feature artifact per (window, genome) pair: nothing is overwritten or
dropped while regrouping. -/
theorem C10_distinct_keys_no_overwrite (sizes : List (String × Nat)) (C O : Nat)
    (g : String) (outcome : Window → List (String × Nat) × Nat)
    (hO : O < C) (hnames : (sizes.map Prod.fst).Nodup)
    (hchunks : ∀ w ∈ planWindows sizes C O, ((outcome w).1.map Prod.fst).Nodup) :
    setupPlan sizes C O = Except.ok (planWindows sizes C O) ∧
    ((planWindows sizes C O).map windowKey).Nodup ∧
    (merge_results (setupResults (planWindows sizes C O) outcome)).2 =
      (planWindows sizes C O).map (fun w => (windowKey w, (outcome w).2)) ∧
    genomeChunks (merge_results (setupResults (planWindows sizes C O) outcome)) g =
      ((planWindows sizes C O).filter
        fun w => (dictLookup g (outcome w).1).isSome).map
        (fun w => (windowKey w, (dictLookup g (outcome w).1).getD 0)) := by
  have hkeys : ((planWindows sizes C O).map windowKey).Nodup :=
    planWindows_keys_nodup sizes C O hO hnames
  have hnd : ((setupResults (planWindows sizes C O) outcome).map entryKey).Nodup := by
    unfold setupResults
    rw [List.map_map]
    exact hkeys
  have hchunks2 : ∀ r ∈ setupResults (planWindows sizes C O) outcome,
      (r.gff_chunks.map Prod.fst).Nodup := by
    intro r hr
    unfold setupResults at hr
    simp only [List.mem_map] at hr
    obtain ⟨w, hw, rfl⟩ := hr
    exact hchunks w hw
  refine ⟨setupPlan_ok sizes C O hO, hkeys, ?_, ?_⟩
  · rw [merge_results_stdout _ hnd]
    unfold setupResults
    rw [List.map_map]
    rfl
  · rw [merge_results_genome g _ hnd hchunks2]
    unfold setupResults
    rw [filter_of_map, List.map_map]
    rfl

/-- Witness for C10 with two chromosomes, C = 2, O = 1. -/
theorem C10_distinct_keys_no_overwrite_witness :
    setupPlan [("chr1", 5), ("chr2", 3)] 2 1 =
      Except.ok (planWindows [("chr1", 5), ("chr2", 3)] 2 1) ∧
    ((planWindows [("chr1", 5), ("chr2", 3)] 2 1).map windowKey).Nodup ∧
    (merge_results (setupResults (planWindows [("chr1", 5), ("chr2", 3)] 2 1)
        (fun w => ([("g", w.start)], w.start)))).2 =
      (planWindows [("chr1", 5), ("chr2", 3)] 2 1).map
        (fun w => (windowKey w,
          ((fun w : Window => (([("g", w.start)], w.start) :
            List (String × Nat) × Nat)) w).2)) ∧
    genomeChunks (merge_results (setupResults (planWindows [("chr1", 5), ("chr2", 3)] 2 1)
        (fun w => ([("g", w.start)], w.start)))) "g" =
      ((planWindows [("chr1", 5), ("chr2", 3)] 2 1).filter
        fun w => (dictLookup "g" ((fun w : Window => (([("g", w.start)], w.start) :
          List (String × Nat) × Nat)) w).1).isSome).map
        (fun w => (windowKey w, (dictLookup "g"
          ((fun w : Window => (([("g", w.start)], w.start) :
            List (String × Nat) × Nat)) w).1).getD 0)) :=
  C10_distinct_keys_no_overwrite [("chr1", 5), ("chr2", 3)] 2 1 "g"
    (fun w => ([("g", w.start)], w.start)) (by decide) (by decide) (by decide)

/-! The job graph built by setup and its scheduling constraints. -/

/-- Job identities in the graph setup builds: the setup job itself, one
hal2maf extraction job per window (line 92), one cgp prediction job as that
extraction job's follow-on (line 96), and the merge_results job added as a
follow-on of setup after the loop (line 104). -/
inductive JobId where
  | setupJob : JobId
  | extraction : ChunkKey → JobId
  | prediction : ChunkKey → JobId
  | mergeJob : JobId
deriving DecidableEq

/-- The child jobs added by setup's planning loop (line 92): one extraction
job per planned window. -/
def setupChildren (plan : List ChunkKey) : List JobId :=
  plan.map JobId.extraction

/-- The follow-on declarations present in the source: each extraction job
gets its window's prediction job (line 96), and the setup job gets the
merge job (line 104, added after the loop has created every chain). -/
def jobFollowOns : JobId → List JobId
  | JobId.extraction w => [JobId.prediction w]
  | JobId.setupJob => [JobId.mergeJob]
  | _ => []

/-- Modelled from the spec: the DAG engine's follow-on gating (spec sections
4.2 and 5) lives in the external toil library, not in this repository's
source.  A follow-on of the setup job becomes eligible only once every child
of setup and every follow-on of those children has resolved, so the merge
job's wait set is every window's extraction job together with that job's
prediction follow-on. -/
def mergeWaitSet (plan : List ChunkKey) : List JobId :=
  setupChildren plan ++ (setupChildren plan).flatMap jobFollowOns

/-- The prerequisites each job must wait for: a prediction job waits for its
window's extraction job; the merge job waits for its whole wait set. -/
def jobPrereqs (plan : List ChunkKey) : JobId → List JobId
  | JobId.prediction w => [JobId.extraction w]
  | JobId.mergeJob => mergeWaitSet plan
  | _ => []

/-- A schedule (the order in which jobs resolve) is valid when every job
runs only after all of its prerequisites have resolved; `done` holds the
already-resolved jobs. -/
def validFrom (plan : List ChunkKey) : List JobId → List JobId → Bool
  | _, [] => true
  | done, j :: rest =>
    (jobPrereqs plan j).all (fun d => decide (d ∈ done)) &&
      validFrom plan (j :: done) rest

def validSchedule (plan : List ChunkKey) (sched : List JobId) : Bool :=
  validFrom plan [] sched

theorem validFrom_prereqs (plan : List ChunkKey) :
    ∀ (pre : List JobId) (rest done sched : List JobId) (j : JobId),
      validFrom plan done sched = true → sched = pre ++ j :: rest →
      ∀ d ∈ jobPrereqs plan j, d ∈ done ∨ d ∈ pre := by
  intro pre
  induction pre with
  | nil =>
    intro rest done sched j hv hs d hd
    subst hs
    simp only [List.nil_append, validFrom, Bool.and_eq_true, List.all_eq_true] at hv
    exact Or.inl (of_decide_eq_true (hv.1 d hd))
  | cons p pre2 ih =>
    intro rest done sched j hv hs d hd
    subst hs
    simp only [List.cons_append, validFrom, Bool.and_eq_true] at hv
    have h2 := ih rest (p :: done) _ j hv.2 rfl d hd
    rcases h2 with h2 | h2
    · rcases List.mem_cons.1 h2 with h3 | h3
      · right
        rw [h3]
        exact List.mem_cons_self p pre2
      · exact Or.inl h3
    · exact Or.inr (List.mem_cons_of_mem _ h2)

/-- Claim C6: the merge job is declared dependent on every window chain —
for every planned window both the extraction and the prediction job belong
to the merge job's declared wait set — and in every valid schedule the merge
job resolves only after every window's extraction and prediction jobs have
resolved: no merge activity is observable before the last chain resolves.
(The follow-on gating semantics of the external toil scheduler is modelled
from the spec; the graph shape itself is the one the source builds.) -/
theorem C6_fan_in_gating (plan : List ChunkKey) (sched pre rest : List JobId)
    (hv : validSchedule plan sched = true)
    (hs : sched = pre ++ JobId.mergeJob :: rest) :
    (∀ w ∈ plan, JobId.extraction w ∈ jobPrereqs plan JobId.mergeJob ∧
      JobId.prediction w ∈ jobPrereqs plan JobId.mergeJob) ∧
    (∀ w ∈ plan, JobId.extraction w ∈ pre ∧ JobId.prediction w ∈ pre) := by
  have hmem : ∀ w ∈ plan, JobId.extraction w ∈ jobPrereqs plan JobId.mergeJob ∧
      JobId.prediction w ∈ jobPrereqs plan JobId.mergeJob := by
    intro w hw
    constructor
    · simp only [jobPrereqs, mergeWaitSet, setupChildren, List.mem_append]
      exact Or.inl (List.mem_map_of_mem JobId.extraction hw)
    · simp only [jobPrereqs, mergeWaitSet, setupChildren, List.mem_append,
        List.mem_flatMap]
      exact Or.inr ⟨JobId.extraction w, List.mem_map_of_mem JobId.extraction hw,
        by simp [jobFollowOns]⟩
  refine ⟨hmem, ?_⟩
  intro w hw
  have h := validFrom_prereqs plan pre rest [] sched JobId.mergeJob hv hs
  constructor
  · rcases h _ (hmem w hw).1 with h1 | h1
    · simp at h1
    · exact h1
  · rcases h _ (hmem w hw).2 with h1 | h1
    · simp at h1
    · exact h1

/-- Witness for C6: a two-window plan and the schedule that runs both chains
and then the merge job. -/
theorem C6_fan_in_gating_witness :
    (∀ w ∈ [(("chr1", 0, 5) : ChunkKey), ("chr1", 4, 1)],
      JobId.extraction w ∈ jobPrereqs [("chr1", 0, 5), ("chr1", 4, 1)] JobId.mergeJob ∧
      JobId.prediction w ∈ jobPrereqs [("chr1", 0, 5), ("chr1", 4, 1)] JobId.mergeJob) ∧
    (∀ w ∈ [(("chr1", 0, 5) : ChunkKey), ("chr1", 4, 1)],
      JobId.extraction w ∈ [JobId.extraction ("chr1", 0, 5),
        JobId.prediction ("chr1", 0, 5), JobId.extraction ("chr1", 4, 1),
        JobId.prediction ("chr1", 4, 1)] ∧
      JobId.prediction w ∈ [JobId.extraction ("chr1", 0, 5),
        JobId.prediction ("chr1", 0, 5), JobId.extraction ("chr1", 4, 1),
        JobId.prediction ("chr1", 4, 1)]) :=
  C6_fan_in_gating [("chr1", 0, 5), ("chr1", 4, 1)]
    [JobId.extraction ("chr1", 0, 5), JobId.prediction ("chr1", 0, 5),
      JobId.extraction ("chr1", 4, 1), JobId.prediction ("chr1", 4, 1),
      JobId.mergeJob]
    [JobId.extraction ("chr1", 0, 5), JobId.prediction ("chr1", 0, 5),
      JobId.extraction ("chr1", 4, 1), JobId.prediction ("chr1", 4, 1)]
    [] (by decide) rfl

end CAT
